import Mathlib

/-!
Verification of the disco Python worker (`lib/disco/worker/__init__.py`)
against its natural-language specification.

The development is a shallow embedding of the worker module:

* Python values that flow through the `Worker` dict are modelled by the
  mutual inductive `Value`/`Entries` (an association structure standing for
  a Python dict; lookup takes the first matching key, and construction
  keeps keys unique exactly as Python dicts do).
* `Worker` is a dict subclass in the source, so it is modelled as its dict
  contents (`Entries`); `Worker.defaults`, `Worker.init`, `Worker.getitem`,
  `Worker.jobdict`, `Worker.jobenvs`, `Worker.endTask` (the source method
  `end`, renamed because `end` is a Lean keyword), `Worker.jobdata`,
  `Worker.unpack` and `Worker.main` are translated from the source.
* Stateful code (the in-place mutation of `job.settings` performed by
  `jobenvs`) is embedded by explicit state passing: `jobenvs` returns both
  the environment and the settings object as it stands after the call.
* Fallible code (Python statements that can raise: `max()` over an empty
  sequence, `dict.__getitem__` on a missing key) returns `Option`.
* `Worker.main`'s protocol behaviour is embedded as a function from the
  outcome of its fallible phase (everything the `try` block runs after the
  announcement) to the list of emitted protocol messages plus the
  re-raised exception, mirroring the `try`/`except` structure line by line.
-/

mutual
/-- A Python value as it appears in the worker's configuration dict:
`None`, booleans, integers, strings, function references (the `map` and
`reduce` callables), and dicts.  `Entries` is the association structure of
a dict. -/
inductive Value where
  | vnone
  | vbool (b : Bool)
  | vint (n : Int)
  | vstr (s : String)
  | vfunc (name : String)
  | vdict (entries : Entries)
deriving DecidableEq
inductive Entries where
  | enil
  | econs (key : String) (val : Value) (rest : Entries)
deriving DecidableEq
end

/-- Dict lookup: `d[k]` / `d.get(k)`, first matching key. -/
def Entries.lookup : Entries → String → Option Value
  | .enil, _ => none
  | .econs k v r, key => if k = key then some v else r.lookup key

/-- Whether the dict has no items (Python falsy dict). -/
def Entries.isEmpty : Entries → Bool
  | .enil => true
  | .econs _ _ _ => false

/-- Dict item assignment `d[k] = v`: replaces the value of an existing key,
otherwise appends a new item. -/
def Entries.set : Entries → String → Value → Entries
  | .enil, key, v => .econs key v .enil
  | .econs k v0 r, key, v =>
      if k = key then .econs k v r else .econs k v0 (r.set key v)

/-- Dict update `d.update(kw)`: item assignment for every item of `kw`. -/
def Entries.update : Entries → Entries → Entries
  | d, .enil => d
  | d, .econs k v r => (d.set k v).update r

/-- Python truthiness of a modelled value: `None`/`False`/`0`/empty string
and empty dict are falsy, everything else (including any function
reference) is truthy. -/
def Value.truthy : Value → Bool
  | .vnone => false
  | .vbool b => b
  | .vint n => n ≠ 0
  | .vstr s => s ≠ ""
  | .vfunc _ => true
  | .vdict es => ¬ es.isEmpty

/-- The job settings table (`job.settings`, a string-valued mapping of
environment-style variables).  The source mutates it in place in
`jobenvs`, so operations on it are embedded with explicit state passing. -/
structure Settings where
  table : List (String × String)
deriving DecidableEq

/-- First-match lookup in a string-valued association list. -/
def lookupS : List (String × String) → String → Option String
  | [], _ => none
  | (k, v) :: r, key => if k = key then some v else lookupS r key

/-- Assignment in a string-valued association list (replace or append). -/
def setS : List (String × String) → String → String → List (String × String)
  | [], key, v => [(key, v)]
  | (k, v0) :: r, key, v =>
      if k = key then (k, v) :: r else (k, v0) :: setS r key v

/-- `settings[k] = v`. -/
def Settings.set (s : Settings) (key v : String) : Settings :=
  ⟨setS s.table key v⟩

/-- `settings.get(k, default)`. -/
def Settings.get (s : Settings) (key dflt : String) : String :=
  (lookupS s.table key).getD dflt

/-- `settings[k]`, raising `KeyError` (`none`) when the key is absent. -/
def Settings.getitem (s : Settings) (key : String) : Option String :=
  lookupS s.table key

/-- Modelled from the spec: `settings.env`, the settings' environment view
(class `DiscoSettings` lives outside this repository slice).  Per the
spec, the job environment is "a mapping of process environment variables,
derived from job settings": the view is a derived copy of the settings'
variable mapping. -/
def Settings.env (s : Settings) : List (String × String) :=
  s.table

/-- The job context as this module consumes it: a name, the settings
table, and the attributes the job object exposes (consulted through
`hasattr`/`getattr` in `Worker.getitem`), modelled as an association
structure. -/
structure Job where
  name : String
  settings : Settings
  attrs : Entries
deriving DecidableEq

/-- `hasattr(job, key)`. -/
def Job.hasattr (j : Job) (key : String) : Bool :=
  (j.attrs.lookup key).isSome

/-- `getattr(job, key)` (meaningful when `hasattr`). -/
def Job.getattr (j : Job) (key : String) : Value :=
  (j.attrs.lookup key).getD .vnone

/-- A `Worker` is a dict subclass; its observable state is its dict
contents. -/
def Worker := Entries

instance : DecidableEq Worker := inferInstanceAs (DecidableEq Entries)

namespace Worker

/-- `Worker.defaults`: the built-in defaults of the recognized keys. -/
def defaults : Entries :=
  .econs "map" .vnone <|
  .econs "merge_partitions" (.vbool false) <|
  .econs "reduce" .vnone <|
  .econs "required_files" (.vdict .enil) <|
  .econs "required_modules" .vnone <|
  .econs "save" (.vbool false) <|
  .econs "scheduler" (.vdict .enil) <|
  .econs "partitions" (.vint 1) <|
  .econs "profile" (.vbool false) .enil

/-- `Worker.__init__(**kwargs)`: start from the defaults, then
`self.update(kwargs)`. -/
def init (kwargs : Entries) : Worker :=
  defaults.update kwargs

/-- `Worker.getitem(key, job, **jobargs)`: three-layer precedence lookup —
call-time arguments, then a job attribute, then the worker dict itself
(`self.get(key)`, which yields `None` when the key is absent). -/
def getitem (w : Worker) (key : String) (job : Job) (jobargs : Entries) :
    Value :=
  match jobargs.lookup key with
  | some v => v
  | none =>
      if job.hasattr key then job.getattr key
      else (Entries.lookup w key).getD .vnone

/-- `Worker.bin`: `os.path.join('lib', '%s.py' % self.__module__.replace('.', '/'))`. -/
def bin (module : String) : String :=
  "lib/" ++ module.replace "." "/" ++ ".py"

end Worker

/-- A resolved input as `Worker.jobdict` receives it from the input-list
collaborator: either a plain address, or (modelled from the spec, since
`disco.util.ispartitioned`/`read_index` live outside this repository
slice) a directory-style reference enumerating its partition-index
entries, each a partition id with an address. -/
inductive Input where
  | plain (url : String)
  | dir (entries : List (Nat × String))
deriving DecidableEq

/-- Modelled from the spec: `disco.util.read_index(dir)`, the
partition-reading collaborator — enumerates every (partition id, address)
entry of a directory-style input's index. -/
def read_index : Input → List (Nat × String)
  | .plain _ => []
  | .dir entries => entries

/-- Modelled from the spec: `disco.util.ispartitioned(input)` — the input
set is partitioned when each input is a directory-style reference
enumerating partition ids. -/
def ispartitioned (input : List Input) : Bool :=
  input.all fun i => match i with | .dir _ => true | .plain _ => false

/-- The partition ids enumerated across all inputs' index entries, in
order: `(int(id) for dir in input for id, url in read_index(dir))`. -/
def allIds (input : List Input) : List Nat :=
  input.flatMap fun d => (read_index d).map Prod.fst

namespace Worker

/-- Lines 151–167 of the source: the `nr_reduces` computation of
`Worker.jobdict`, including the final `merge_partitions` override.
`none` models the `ValueError` Python's `max()` raises on an empty
sequence (no map, a partitioned input set, and no index entries at all).
The resolved `partitions` value is whatever object the lookup yields, so
the result is a `Value` (the source computes `get('partitions') or 1`). -/
def nrReducesVal (w : Worker) (job : Job) (jobargs : Entries)
    (input : List Input) : Option Value :=
  let g := fun k => w.getitem k job jobargs
  let raw : Option Value :=
    if (g "map").truthy then
      some (if (g "partitions").truthy then g "partitions" else .vint 1)
    else if ispartitioned input then
      match allIds input with
      | [] => none
      | i :: is => some (.vint (1 + (is.foldl max i : Nat)))
    else
      some (.vint 1)
  raw.map fun v => if (g "merge_partitions").truthy then .vint 1 else v

/-- The job descriptor record `Worker.jobdict` returns.  Field names are
Lean-safe spellings of the source's string keys: `hasMap` is `'map?'`,
`hasReduce` is `'reduce?'`, `profileFlag` is `'profile?'`, `nrReduces` is
`'nr_reduces'`, `jobPrefix` is `'prefix'`, `workerBin` is `'worker'`. -/
structure JobDict where
  input : List Input
  workerBin : String
  hasMap : Bool
  hasReduce : Bool
  profileFlag : Value
  nrReduces : Value
  jobPrefix : String
  scheduler : Value
  owner : String
deriving DecidableEq

/-- `Worker.jobdict(job, **jobargs)`.  The call to the input-list
collaborator `inputlist(...)` is out of scope (§1 of the spec); its result
is the `input` parameter.  `module` stands for `self.__module__`
(`'disco.worker'` for the base class).  `none` models the two statements
that can raise: the `max()` inside the `nr_reduces` computation and
`job.settings['DISCO_JOB_OWNER']` (`KeyError` when absent). -/
def jobdict (w : Worker) (module : String) (job : Job) (jobargs : Entries)
    (input : List Input) : Option JobDict :=
  let g := fun k => w.getitem k job jobargs
  match nrReducesVal w job jobargs input with
  | none => none
  | some nr =>
    match job.settings.getitem "DISCO_JOB_OWNER" with
    | none => none
    | some owner =>
      some ⟨input, bin module, (g "map").truthy, (g "reduce").truthy,
            g "profile", nr, job.name, g "scheduler", owner⟩

/-- `Worker.jobenvs(job, **jobargs)`.  `settings = job.settings` binds a
reference, not a copy, so the three item assignments mutate the job's
settings in place; the embedding passes that state explicitly and returns
both the result of `settings.env` and the settings as they stand after
the call. -/
def jobenvs (s : Settings) : List (String × String) × Settings :=
  let s1 := s.set "LC_ALL" "C"
  let s2 := s1.set "LD_LIBRARY_PATH" "lib"
  let s3 := s2.set "PYTHONPATH" (s2.get "PYTHONPATH" "" ++ ":" ++ "lib")
  (s3.env, s3)

/-- The finalization action `Worker.end` takes on the task's output. -/
inductive EndAction where
  | send
  | save
deriving DecidableEq

/-- `Worker.end(task, job, **jobargs)` (renamed: `end` is a Lean keyword):
`if not self['save'] or (task.mode == 'map' and self['reduce'])` then
`task.send()` else `task.save()`.  Evaluation order matches Python's
short-circuiting: `self['save']` is always read (`KeyError` → `none` when
absent), `self['reduce']` only when the saved flag is truthy and the mode
is `'map'`. -/
def endTask (w : Worker) (mode : String) : Option EndAction :=
  match Entries.lookup w "save" with
  | none => none
  | some sv =>
    if ¬ sv.truthy then
      some .send
    else if mode = "map" then
      match Entries.lookup w "reduce" with
      | none => none
      | some rv => some (if rv.truthy then .send else .save)
    else
      some .save

end Worker

/-- The exception classes `Worker.main` distinguishes: the first `except`
clause catches `(DataError, EnvironmentError, MemoryError)`
(`disco.error.DataError` lives outside this repository slice and is
modelled at its interface boundary as a distinct class), the second
catches any other `Exception`. -/
inductive ExcKind where
  | dataError
  | environmentError
  | memoryError
  | otherError
deriving DecidableEq

/-- A raised exception as `Worker.main` observes it: its class and its
`traceback.format_exc()` text. -/
structure Exc where
  kind : ExcKind
  trace : String
deriving DecidableEq

/-- A worker-to-controller protocol message (`disco.events`):
`AnnouncePID`, `Status`, and the three terminal signals `WorkerDone`,
`DataUnavailable`, `TaskFailed`. -/
inductive Msg where
  | announcePID (pid : String)
  | status (text : String)
  | workerDone
  | dataUnavailable (text : String)
  | taskFailed (text : String)
deriving DecidableEq

/-- Whether a message is a terminal signal. -/
def Msg.isTerminal : Msg → Bool
  | .workerDone => true
  | .dataUnavailable _ => true
  | .taskFailed _ => true
  | .announcePID _ => false
  | .status _ => false

/-- Modelled from the spec: `disco.util.MessageWriter.force_utf8` forces
the fixed text encoding of the output channel; the model's strings are
already text, so the transformation is the identity on them. -/
def force_utf8 (s : String) : String := s

/-- The outcome of the fallible phase of `Worker.main`: the statements of
the `try` block after the announcement (unpack the package, request the
task, `worker.start(...)`).  On success it carries the `Status` progress
texts emitted along the way (`Worker.end` sends one); on failure, the
texts emitted before the raise plus the raised exception. -/
inductive PhaseResult where
  | success (statusTexts : List String)
  | failure (statusTexts : List String) (e : Exc)
deriving DecidableEq

namespace Worker

/-- The two `except` clauses of `Worker.main` (lines 284–292): a
`DataError`, `EnvironmentError` or `MemoryError` is answered with
`DataUnavailable(traceback.format_exc())`; any other `Exception` with
`TaskFailed(MessageWriter.force_utf8(traceback.format_exc()))`. -/
def classify (e : Exc) : Msg :=
  match e.kind with
  | .dataError => .dataUnavailable e.trace
  | .environmentError => .dataUnavailable e.trace
  | .memoryError => .dataUnavailable e.trace
  | .otherError => .taskFailed (force_utf8 e.trace)

/-- `Worker.main()`: announce the process id, run the fallible phase, and
either send `WorkerDone` (full success) or classify the exception, send
the resulting terminal signal, and re-raise.  The result is the sequence
of messages written to the controller channel together with the
re-raised exception (`none` when the process exits normally). -/
def main (pid : String) (r : PhaseResult) : List Msg × Option Exc :=
  match r with
  | .success ts => (.announcePID pid :: ts.map Msg.status ++ [.workerDone], none)
  | .failure ts e => (.announcePID pid :: ts.map Msg.status ++ [classify e], some e)

end Worker

/-- A token of the serialized job payload: the model of the pickle wire
format for the values this module serializes. -/
inductive Tok where
  | tNone
  | tBool (b : Bool)
  | tInt (n : Int)
  | tStr (s : String)
  | tFunc (s : String)
  | tDict
  | tEnd
deriving DecidableEq

mutual
/-- Modelled from the spec: serialization of a value by the external
serialization collaborator (`cPickle`), whose contract is that the
payload round-trips.  A value is encoded as a prefix token stream. -/
def encodeV : Value → List Tok
  | .vnone => [.tNone]
  | .vbool b => [.tBool b]
  | .vint n => [.tInt n]
  | .vstr s => [.tStr s]
  | .vfunc s => [.tFunc s]
  | .vdict es => .tDict :: encodeE es
/-- Dict items are encoded as key/value pairs closed by an end marker. -/
def encodeE : Entries → List Tok
  | .enil => [.tEnd]
  | .econs k v r => .tStr k :: (encodeV v ++ encodeE r)
end

mutual
/-- Modelled from the spec: deserialization of a value (`cPickle.loads`),
a fuel-indexed recursive-descent reader of the token stream returning the
value and the unread remainder. -/
def decodeV : Nat → List Tok → Option (Value × List Tok)
  | 0, _ => none
  | Nat.succ fuel, toks =>
    match toks with
    | .tNone :: r => some (.vnone, r)
    | .tBool b :: r => some (.vbool b, r)
    | .tInt n :: r => some (.vint n, r)
    | .tStr s :: r => some (.vstr s, r)
    | .tFunc s :: r => some (.vfunc s, r)
    | .tDict :: r =>
      match decodeE fuel r with
      | some (es, r2) => some (.vdict es, r2)
      | none => none
    | _ => none
/-- Deserialization of dict items up to the closing end marker. -/
def decodeE : Nat → List Tok → Option (Entries × List Tok)
  | 0, _ => none
  | Nat.succ fuel, toks =>
    match toks with
    | .tEnd :: r => some (.enil, r)
    | .tStr k :: r =>
      match decodeV fuel r with
      | some (v, r2) =>
        match decodeE fuel r2 with
        | some (es, r3) => some (.econs k v es, r3)
        | none => none
      | none => none
    | _ => none
end

/-- Serialization of the settings table (string-to-string items closed by
an end marker). -/
def encodeSM : List (String × String) → List Tok
  | [] => [.tEnd]
  | (k, v) :: r => .tStr k :: .tStr v :: encodeSM r

/-- Deserialization of the settings table. -/
def decodeSM : List Tok → Option (List (String × String) × List Tok)
  | .tEnd :: r => some ([], r)
  | .tStr k :: .tStr v :: r =>
    match decodeSM r with
    | some (m, r2) => some ((k, v) :: m, r2)
    | none => none
  | _ => none

/-- Serialization of the `(self, job, jobargs)` triple pickled by
`Worker.jobdata`: the worker's dict contents, then the job context (name,
settings table, exposed attributes), then the call-time arguments. -/
def encodeTriple (w : Worker) (job : Job) (jobargs : Entries) : List Tok :=
  encodeE w ++ .tStr job.name ::
    (encodeSM job.settings.table ++ encodeE job.attrs ++ encodeE jobargs)

/-- Deserialization of the `(self, job, jobargs)` triple; `none` models an
unpickling failure on a malformed payload. -/
def decodeTriple (toks : List Tok) : Option (Worker × Job × Entries) :=
  let fuel := toks.length
  match decodeE fuel toks with
  | some (w, r1) =>
    match r1 with
    | .tStr name :: r2 =>
      match decodeSM r2 with
      | some (tbl, r3) =>
        match decodeE fuel r3 with
        | some (attrs, r4) =>
          match decodeE fuel r4 with
          | some (ja, r5) =>
            if r5 = [] then some (w, ⟨name, ⟨tbl⟩, attrs⟩, ja) else none
          | none => none
        | none => none
      | none => none
    | _ => none
  | none => none

/-- The job pack as `Worker.unpack` receives it; this module only reads
its `jobdata` field. -/
structure JobPack where
  jobdata : List Tok

namespace Worker

/-- `Worker.jobdata(job, **jobargs)`:
`cPickle.dumps((self, job, jobargs), -1)`. -/
def jobdata (w : Worker) (job : Job) (jobargs : Entries) : List Tok :=
  encodeTriple w job jobargs

/-- `Worker.unpack(jobpack)`: `cPickle.loads(jobpack.jobdata)`.  The
optional preloading of a controller-provided `__main__` module is an
external-module hand-off (spec §4.5) with no effect on the decoded
triple, and is elided. -/
def unpack (jp : JobPack) : Option (Worker × Job × Entries) :=
  decodeTriple jp.jobdata

end Worker

/-! Helper lemmas about the dict operations. -/

theorem Entries.lookup_set_self : ∀ (d : Entries) (k : String) (v : Value),
    (d.set k v).lookup k = some v
  | .enil, k, v => by simp [Entries.set, Entries.lookup]
  | .econs k0 v0 r, k, v => by
    by_cases h : k0 = k
    · subst h; simp [Entries.set, Entries.lookup]
    · simp [Entries.set, Entries.lookup, h, Entries.lookup_set_self r k v]

theorem Entries.lookup_set_ne : ∀ (d : Entries) (k k' : String) (v : Value),
    k ≠ k' → (d.set k v).lookup k' = d.lookup k'
  | .enil, k, k', v, h => by simp [Entries.set, Entries.lookup, h]
  | .econs k0 v0 r, k, k', v, h => by
    by_cases h0 : k0 = k
    · subst h0; simp [Entries.set, Entries.lookup, h]
    · simp [Entries.set, Entries.lookup, h0,
        Entries.lookup_set_ne r k k' v h]

theorem Entries.lookup_update_isSome : ∀ (kw d : Entries) (k : String),
    (d.lookup k).isSome → ((d.update kw).lookup k).isSome
  | .enil, d, k, h => by simpa [Entries.update] using h
  | .econs k0 v0 r, d, k, h => by
    show (((d.set k0 v0).update r).lookup k).isSome
    apply Entries.lookup_update_isSome r
    by_cases hk : k0 = k
    · subst hk; simp [Entries.lookup_set_self]
    · rw [Entries.lookup_set_ne d k0 k v0 hk]; exact h

theorem Worker.init_lookup_isSome (kwargs : Entries) (k : String)
    (h : (Worker.defaults.lookup k).isSome) :
    (Entries.lookup (Worker.init kwargs) k).isSome :=
  Entries.lookup_update_isSome kwargs Worker.defaults k h

/-- C6: `Worker.getitem` resolves in precedence order: the call-time
arguments win when they hold the key; otherwise a job attribute wins when
the job exposes one; otherwise the worker's own stored value is returned.
The first matching layer wins entirely. -/
theorem Worker.getitem_precedence (w : Worker) (job : Job) (jobargs : Entries)
    (key : String) :
    (∀ v, jobargs.lookup key = some v → w.getitem key job jobargs = v)
  ∧ (jobargs.lookup key = none →
      ∀ v, job.attrs.lookup key = some v → w.getitem key job jobargs = v)
  ∧ (jobargs.lookup key = none → job.attrs.lookup key = none →
      ∀ v, Entries.lookup w key = some v → w.getitem key job jobargs = v) := by
  refine ⟨fun v hv => ?_, fun h1 v hv => ?_, fun h1 h2 v hv => ?_⟩
  · simp [Worker.getitem, hv]
  · simp [Worker.getitem, h1, Job.hasattr, Job.getattr, hv]
  · simp [Worker.getitem, h1, h2, Job.hasattr, Job.getattr, hv]

/-- Concrete instances of the three precedence layers of
`Worker.getitem_precedence`. -/
theorem Worker.getitem_precedence_witness :
    Worker.getitem (Worker.init .enil) "save" ⟨"j", ⟨[]⟩, .enil⟩
        (.econs "save" (.vint 7) .enil) = .vint 7
  ∧ Worker.getitem (Worker.init .enil) "save"
        ⟨"j", ⟨[]⟩, .econs "save" (.vint 8) .enil⟩ .enil = .vint 8
  ∧ Worker.getitem (Worker.init .enil) "save" ⟨"j", ⟨[]⟩, .enil⟩ .enil
        = .vbool false := by
  refine ⟨?_, ?_, ?_⟩
  · exact (Worker.getitem_precedence (Worker.init .enil) ⟨"j", ⟨[]⟩, .enil⟩
      (.econs "save" (.vint 7) .enil) "save").1 (.vint 7) (by decide)
  · exact (Worker.getitem_precedence (Worker.init .enil)
      ⟨"j", ⟨[]⟩, .econs "save" (.vint 8) .enil⟩ .enil "save").2.1 (by decide)
      (.vint 8) (by decide)
  · exact (Worker.getitem_precedence (Worker.init .enil) ⟨"j", ⟨[]⟩, .enil⟩
      .enil "save").2.2 (by decide) (by decide) (.vbool false) (by decide)

/-- C10: when the key is in none of the three layers, `Worker.getitem`
returns `None` (the no-value result of `self.get(key)`) instead of
raising. -/
theorem Worker.getitem_missing_none (w : Worker) (job : Job)
    (jobargs : Entries) (key : String)
    (h1 : jobargs.lookup key = none) (h2 : job.attrs.lookup key = none)
    (h3 : Entries.lookup w key = none) :
    w.getitem key job jobargs = .vnone := by
  simp [Worker.getitem, h1, h2, h3, Job.hasattr, Job.getattr]

/-- Concrete instance of `Worker.getitem_missing_none`: an unrecognized
key that no layer holds. -/
theorem Worker.getitem_missing_none_witness :
    Worker.getitem (Worker.init .enil) "bogus" ⟨"j", ⟨[]⟩, .enil⟩ .enil
      = .vnone :=
  Worker.getitem_missing_none (Worker.init .enil) ⟨"j", ⟨[]⟩, .enil⟩ .enil
    "bogus" (by decide) (by decide) (by decide)

/-- Counterexample to C5 as stated: with `save` overridden to true in the
call-time arguments (so the *resolved* save flag is true) and a reduce
task, the claim requires the output to be saved, but `Worker.end` reads
only the worker's own stored `save` value (still false) and sends. -/
theorem Worker.endTask_resolved_flag_cex :
    ¬ (Worker.endTask (Worker.init .enil) "reduce" =
        some (if (Worker.getitem (Worker.init .enil) "save" ⟨"j", ⟨[]⟩, .enil⟩
                    (.econs "save" (.vbool true) .enil)).truthy = false
                 ∨ ("reduce" = "map"
                    ∧ (Worker.getitem (Worker.init .enil) "reduce"
                         ⟨"j", ⟨[]⟩, .enil⟩
                         (.econs "save" (.vbool true) .enil)).truthy = true)
              then Worker.EndAction.send else Worker.EndAction.save)) := by
  decide

/-- C5 as amended: for every constructed worker and task mode,
`Worker.end` decides from the worker's *own stored* `save` and `reduce`
values — it sends when the stored save flag is falsy or the mode is `map`
with a truthy stored reduce, and saves otherwise; exactly one of
send/save results (the decision is a single total choice between the two,
never both, never neither). -/
theorem Worker.endTask_stored_flags (kwargs : Entries) (mode : String) :
    ∃ sv rv : Value,
      Entries.lookup (Worker.init kwargs) "save" = some sv
      ∧ Entries.lookup (Worker.init kwargs) "reduce" = some rv
      ∧ Worker.endTask (Worker.init kwargs) mode =
          some (if sv.truthy = false ∨ (mode = "map" ∧ rv.truthy = true)
                then .send else .save) := by
  obtain ⟨sv, hsv⟩ := Option.isSome_iff_exists.mp
    (Worker.init_lookup_isSome kwargs "save" (by decide))
  obtain ⟨rv, hrv⟩ := Option.isSome_iff_exists.mp
    (Worker.init_lookup_isSome kwargs "reduce" (by decide))
  refine ⟨sv, rv, hsv, hrv, ?_⟩
  unfold Worker.endTask
  rw [hsv]
  by_cases hs : sv.truthy
  · by_cases hm : mode = "map"
    · subst hm; rw [hrv]
      by_cases hr : rv.truthy <;> simp [hs, hr]
    · simp [hs, hm]
  · simp [hs]

/-- No terminal signal among the `Status` progress messages. -/
theorem Msg.filter_status (ts : List String) :
    (ts.map Msg.status).filter Msg.isTerminal = [] := by
  induction ts with
  | nil => rfl
  | cons t r ih => simp [List.filter_cons, Msg.isTerminal, ih]

/-- The last element of the message sequence `announce :: body ++ [sig]`. -/
theorem Msg.getLast_shape (a x : Msg) (l : List Msg) :
    (a :: (l ++ [x])).getLast? = some x := by
  rw [← List.cons_append, List.getLast?_append_cons]
  rfl

/-- C1: the terminal signal `Worker.main` emits is `DataUnavailable` when
the fallible phase raises a `DataError`, an `EnvironmentError` or a
`MemoryError`; `TaskFailed` for any other exception; and `WorkerDone`
when run and finalization complete fully. -/
theorem Worker.main_classification (pid : String) (ts : List String)
    (t : String) :
    (Worker.main pid (.failure ts ⟨.dataError, t⟩)).1.filter Msg.isTerminal
        = [.dataUnavailable t]
  ∧ (Worker.main pid (.failure ts ⟨.environmentError, t⟩)).1.filter
        Msg.isTerminal = [.dataUnavailable t]
  ∧ (Worker.main pid (.failure ts ⟨.memoryError, t⟩)).1.filter
        Msg.isTerminal = [.dataUnavailable t]
  ∧ (Worker.main pid (.failure ts ⟨.otherError, t⟩)).1.filter
        Msg.isTerminal = [.taskFailed (force_utf8 t)]
  ∧ (Worker.main pid (.success ts)).1.filter Msg.isTerminal
        = [.workerDone] := by
  refine ⟨?_, ?_, ?_, ?_, ?_⟩ <;>
    simp [Worker.main, Worker.classify, List.filter_cons, List.filter_append,
      Msg.filter_status, Msg.isTerminal]

/-- C2: every invocation of `Worker.main` emits exactly one terminal
signal, it is the last message written, the process announcement is not a
terminal signal, and on failure the exception is re-raised after the
signal (so the hosting process exits with a failure status). -/
theorem Worker.main_single_terminal (pid : String) (ts : List String)
    (e : Exc) :
    ((Worker.main pid (.success ts)).1.filter Msg.isTerminal).length = 1
  ∧ ((Worker.main pid (.failure ts e)).1.filter Msg.isTerminal).length = 1
  ∧ (Worker.main pid (.success ts)).1.getLast? = some .workerDone
  ∧ (Worker.main pid (.failure ts e)).1.getLast?
        = some (Worker.classify e)
  ∧ Msg.isTerminal .workerDone = true
  ∧ Msg.isTerminal (Worker.classify e) = true
  ∧ Msg.isTerminal (.announcePID pid) = false
  ∧ (Worker.main pid (.success ts)).2 = none
  ∧ (Worker.main pid (.failure ts e)).2 = some e := by
  obtain ⟨k, t⟩ := e
  refine ⟨?_, ?_, ?_, ?_, rfl, ?_, rfl, rfl, rfl⟩
  · simp [Worker.main, List.filter_cons, List.filter_append,
      Msg.filter_status, Msg.isTerminal]
  · cases k <;>
      simp [Worker.main, Worker.classify, List.filter_cons,
        List.filter_append, Msg.filter_status, Msg.isTerminal]
  · exact Msg.getLast_shape _ _ _
  · exact Msg.getLast_shape _ _ _
  · cases k <;> rfl

/-! Helper lemmas about the settings-table operations. -/

theorem lookupS_set_self (t : List (String × String)) (k v : String) :
    lookupS (setS t k v) k = some v := by
  induction t with
  | nil => simp [setS, lookupS]
  | cons p r ih =>
    obtain ⟨k0, v0⟩ := p
    by_cases h : k0 = k
    · subst h; simp [setS, lookupS]
    · simp [setS, lookupS, h, ih]

theorem lookupS_set_ne (t : List (String × String)) (k k' v : String)
    (h : k ≠ k') : lookupS (setS t k v) k' = lookupS t k' := by
  induction t with
  | nil => simp [setS, lookupS, h]
  | cons p r ih =>
    obtain ⟨k0, v0⟩ := p
    by_cases h0 : k0 = k
    · subst h0; simp [setS, lookupS, h, ih]
    · simp [setS, lookupS, h0, ih]

/-- The settings table after `Worker.jobenvs` has run, extensionally: the
three override keys carry the fixed values (`LC_ALL` and
`LD_LIBRARY_PATH` replaced outright, `PYTHONPATH` the prior value with
`lib` joined on), every other key is untouched. -/
theorem Worker.jobenvs_table_lookup (s : Settings) (k : String) :
    lookupS (Worker.jobenvs s).2.table k =
      if k = "LC_ALL" then some "C"
      else if k = "LD_LIBRARY_PATH" then some "lib"
      else if k = "PYTHONPATH" then
        some (s.get "PYTHONPATH" "" ++ ":" ++ "lib")
      else lookupS s.table k := by
  have hget : Settings.get
      ⟨setS (setS s.table "LC_ALL" "C") "LD_LIBRARY_PATH" "lib"⟩
      "PYTHONPATH" "" = s.get "PYTHONPATH" "" := by
    unfold Settings.get
    rw [show (Settings.mk (setS (setS s.table "LC_ALL" "C")
          "LD_LIBRARY_PATH" "lib")).table
        = setS (setS s.table "LC_ALL" "C") "LD_LIBRARY_PATH" "lib" from rfl,
      lookupS_set_ne _ _ _ _ (by decide),
      lookupS_set_ne _ _ _ _ (by decide)]
  have hL : (Worker.jobenvs s).2.table =
      setS (setS (setS s.table "LC_ALL" "C") "LD_LIBRARY_PATH" "lib")
        "PYTHONPATH"
        (Settings.get
          ⟨setS (setS s.table "LC_ALL" "C") "LD_LIBRARY_PATH" "lib"⟩
          "PYTHONPATH" "" ++ ":" ++ "lib") := rfl
  rw [hL, hget]
  rcases eq_or_ne k "LC_ALL" with h1 | h1
  · subst h1
    rw [lookupS_set_ne _ _ _ _ (by decide),
      lookupS_set_ne _ _ _ _ (by decide), lookupS_set_self]
    rfl
  · rcases eq_or_ne k "LD_LIBRARY_PATH" with h2 | h2
    · subst h2
      rw [lookupS_set_ne _ _ _ _ (by decide), lookupS_set_self]
      rfl
    · rcases eq_or_ne k "PYTHONPATH" with h3 | h3
      · subst h3
        rw [lookupS_set_self]
        rfl
      · rw [lookupS_set_ne _ _ _ _ (Ne.symm h3),
          lookupS_set_ne _ _ _ _ (Ne.symm h2),
          lookupS_set_ne _ _ _ _ (Ne.symm h1),
          if_neg h1, if_neg h2, if_neg h3]

/-- The environment `Worker.jobenvs` returns is the settings' environment
view taken after the three assignments. -/
theorem Worker.jobenvs_fst_eq (s : Settings) :
    (Worker.jobenvs s).1 = Settings.env (Worker.jobenvs s).2 := rfl

/-- Counterexample to C7 as stated: the claim has the fixed directory
appended to a prior caller-provided library path, but the code *replaces*
`LD_LIBRARY_PATH` outright — with prior value `/usr/x` the produced
environment holds `lib`, not `/usr/x:lib`. -/
theorem Worker.jobenvs_ld_replaced_cex :
    lookupS (Worker.jobenvs ⟨[("LD_LIBRARY_PATH", "/usr/x")]⟩).1
        "LD_LIBRARY_PATH" = some "lib"
  ∧ some "lib" ≠ some ("/usr/x" ++ ":" ++ "lib") := by
  exact ⟨by decide, by decide⟩

/-- C7 as amended: the environment `Worker.jobenvs` produces equals the
settings' environment view with exactly three fixed overrides — the
locale key set to the fixed C locale, the library-path key *set* (not
appended) to the fixed relative directory, and only the module
search-path key extended by joining that directory onto any prior
caller-provided value; every other entry is unchanged. -/
theorem Worker.jobenvs_overrides (s : Settings) (k : String) :
    lookupS (Worker.jobenvs s).1 k =
      if k = "LC_ALL" then some "C"
      else if k = "LD_LIBRARY_PATH" then some "lib"
      else if k = "PYTHONPATH" then
        some (s.get "PYTHONPATH" "" ++ ":" ++ "lib")
      else lookupS s.table k := by
  rw [Worker.jobenvs_fst_eq]
  exact Worker.jobenvs_table_lookup s k

/-- Counterexample to C8 as stated: `jobenvs` binds `settings =
job.settings` by reference and assigns three items on it, so the job's
settings table is *not* unchanged after the call — starting from a table
holding only `HOME`, the table afterwards also carries the three override
keys. -/
theorem Worker.jobenvs_settings_changed_cex :
    (Worker.jobenvs ⟨[("HOME", "/h")]⟩).2 ≠ ⟨[("HOME", "/h")]⟩ := by
  decide

/-- C8 as amended: `Worker.jobenvs` reads the job's settings and also
mutates them in place — after the call the settings table carries the
three override keys (locale, library path, module search path) with every
other entry unchanged — and the environment returned is the settings'
environment view taken after those updates. -/
theorem Worker.jobenvs_mutation_frame (s : Settings) :
    (Worker.jobenvs s).1 = Settings.env (Worker.jobenvs s).2
  ∧ lookupS (Worker.jobenvs s).2.table "LC_ALL" = some "C"
  ∧ lookupS (Worker.jobenvs s).2.table "LD_LIBRARY_PATH" = some "lib"
  ∧ lookupS (Worker.jobenvs s).2.table "PYTHONPATH"
      = some (s.get "PYTHONPATH" "" ++ ":" ++ "lib")
  ∧ ∀ k, k ≠ "LC_ALL" → k ≠ "LD_LIBRARY_PATH" → k ≠ "PYTHONPATH" →
      lookupS (Worker.jobenvs s).2.table k = lookupS s.table k := by
  refine ⟨Worker.jobenvs_fst_eq s, ?_, ?_, ?_, ?_⟩
  · rw [Worker.jobenvs_table_lookup]; rfl
  · rw [Worker.jobenvs_table_lookup]; rfl
  · rw [Worker.jobenvs_table_lookup]; rfl
  · intro k h1 h2 h3
    rw [Worker.jobenvs_table_lookup, if_neg h1, if_neg h2, if_neg h3]

/-- Concrete instance of the frame part of
`Worker.jobenvs_mutation_frame`: an unrelated entry survives the call
unchanged. -/
theorem Worker.jobenvs_mutation_frame_witness :
    lookupS (Worker.jobenvs ⟨[("HOME", "/h")]⟩).2.table "HOME"
      = some "/h" := by
  rw [(Worker.jobenvs_mutation_frame ⟨[("HOME", "/h")]⟩).2.2.2.2 "HOME"
    (by decide) (by decide) (by decide)]
  rfl

/-- C3: the `nr_reduces` computation of `Worker.jobdict`.  With the
`merge_partitions` override off: a present map gives the resolved
`partitions` value (1 when that value is falsy); no map over a
partitioned input list gives 1 plus the maximum partition id enumerated
across all inputs' index entries; no map over an unpartitioned input list
gives 1.  With the override on, the computed value is replaced by 1
whatever it was.  The final conjunct ties the field of the produced job
descriptor to this computation. -/
theorem Worker.jobdict_nr_reduces_cases (w : Worker) (module : String)
    (job : Job) (jobargs : Entries) (input : List Input) :
    ((w.getitem "merge_partitions" job jobargs).truthy = false →
      ((w.getitem "map" job jobargs).truthy = true →
        Worker.nrReducesVal w job jobargs input =
          some (if (w.getitem "partitions" job jobargs).truthy
                then w.getitem "partitions" job jobargs else .vint 1))
    ∧ ((w.getitem "map" job jobargs).truthy = false →
        ispartitioned input = true →
        ∀ m : Nat, (allIds input).max? = some m →
          Worker.nrReducesVal w job jobargs input = some (.vint (1 + m)))
    ∧ ((w.getitem "map" job jobargs).truthy = false →
        ispartitioned input = false →
        Worker.nrReducesVal w job jobargs input = some (.vint 1)))
  ∧ ((w.getitem "merge_partitions" job jobargs).truthy = true →
      ∀ v, Worker.nrReducesVal w job jobargs input = some v →
        v = .vint 1)
  ∧ (∀ d, Worker.jobdict w module job jobargs input = some d →
      some d.nrReduces = Worker.nrReducesVal w job jobargs input) := by
  refine ⟨fun hmerge => ⟨fun hmap => ?_, fun hmap hpart m hm => ?_,
      fun hmap hpart => ?_⟩, fun hmerge v hv => ?_, fun d hd => ?_⟩
  · simp [Worker.nrReducesVal, hmap, hmerge]
  · cases hAI : allIds input with
    | nil => rw [hAI] at hm; simp [List.max?] at hm
    | cons i is =>
      rw [hAI] at hm
      have hfold : is.foldl max i = m := by
        simpa [List.max?] using hm
      simp [Worker.nrReducesVal, hmap, hmerge, hpart, hAI, hfold]
  · simp [Worker.nrReducesVal, hmap, hmerge, hpart]
  · simp only [Worker.nrReducesVal, hmerge] at hv
    rcases Option.map_eq_some'.mp hv with ⟨a, _, hfa⟩
    simp at hfa
    exact hfa.symm
  · unfold Worker.jobdict at hd
    cases hnr : Worker.nrReducesVal w job jobargs input with
    | none => rw [hnr] at hd; simp at hd
    | some nr =>
      rw [hnr] at hd
      cases howner : job.settings.getitem "DISCO_JOB_OWNER" with
      | none => rw [howner] at hd; simp at hd
      | some o =>
        rw [howner] at hd
        simp only [Option.some_inj] at hd
        rw [← hd]

/-- Concrete instances of the four cases of
`Worker.jobdict_nr_reduces_cases`: a map with the default single
partition; no map over inputs enumerating partition ids 0 and 2; no map
over an unpartitioned input; the `merge_partitions` override collapsing a
4-partition map job; and the job-descriptor field agreeing with the
computation. -/
theorem Worker.jobdict_nr_reduces_cases_witness :
    Worker.nrReducesVal (Worker.init (.econs "map" (.vfunc "f") .enil))
        ⟨"j", ⟨[("DISCO_JOB_OWNER", "alice")]⟩, .enil⟩ .enil []
      = some (.vint 1)
  ∧ Worker.nrReducesVal (Worker.init .enil)
        ⟨"j", ⟨[("DISCO_JOB_OWNER", "alice")]⟩, .enil⟩ .enil
        [.dir [(0, "u"), (2, "v")]]
      = some (.vint 3)
  ∧ Worker.nrReducesVal (Worker.init .enil)
        ⟨"j", ⟨[("DISCO_JOB_OWNER", "alice")]⟩, .enil⟩ .enil [.plain "x"]
      = some (.vint 1)
  ∧ Worker.nrReducesVal
        (Worker.init (.econs "merge_partitions" (.vbool true)
          (.econs "map" (.vfunc "f") .enil)))
        ⟨"j", ⟨[("DISCO_JOB_OWNER", "alice")]⟩, .enil⟩
        (.econs "partitions" (.vint 4) .enil) []
      = some (.vint 1)
  ∧ some (Worker.JobDict.nrReduces
        ⟨[], Worker.bin "disco.worker", true, false, .vbool false, .vint 1,
         "j", .vdict .enil, "alice"⟩)
      = Worker.nrReducesVal (Worker.init (.econs "map" (.vfunc "f") .enil))
          ⟨"j", ⟨[("DISCO_JOB_OWNER", "alice")]⟩, .enil⟩ .enil [] := by
  refine ⟨?_, ?_, ?_, ?_, ?_⟩
  · rw [((Worker.jobdict_nr_reduces_cases
        (Worker.init (.econs "map" (.vfunc "f") .enil)) "disco.worker"
        ⟨"j", ⟨[("DISCO_JOB_OWNER", "alice")]⟩, .enil⟩ .enil []).1
        (by decide)).1 (by decide)]
    decide
  · rw [((Worker.jobdict_nr_reduces_cases (Worker.init .enil) "disco.worker"
        ⟨"j", ⟨[("DISCO_JOB_OWNER", "alice")]⟩, .enil⟩ .enil
        [.dir [(0, "u"), (2, "v")]]).1 (by decide)).2.1
        (by decide) (by decide) 2 rfl]
    decide
  · rw [((Worker.jobdict_nr_reduces_cases (Worker.init .enil) "disco.worker"
        ⟨"j", ⟨[("DISCO_JOB_OWNER", "alice")]⟩, .enil⟩ .enil
        [.plain "x"]).1 (by decide)).2.2 (by decide) (by decide)]
  · exact (Worker.jobdict_nr_reduces_cases
        (Worker.init (.econs "merge_partitions" (.vbool true)
          (.econs "map" (.vfunc "f") .enil))) "disco.worker"
        ⟨"j", ⟨[("DISCO_JOB_OWNER", "alice")]⟩, .enil⟩
        (.econs "partitions" (.vint 4) .enil) []).2.1 (by decide)
        (.vint 1) (by decide) ▸ (by decide)
  · exact (Worker.jobdict_nr_reduces_cases
        (Worker.init (.econs "map" (.vfunc "f") .enil)) "disco.worker"
        ⟨"j", ⟨[("DISCO_JOB_OWNER", "alice")]⟩, .enil⟩ .enil []).2.2
        ⟨[], Worker.bin "disco.worker", true, false, .vbool false, .vint 1,
         "j", .vdict .enil, "alice"⟩ rfl

/-- Counterexample to C4 as stated: the code does not validate the
resolved `partitions` value, so a call-time argument of `-5` with a map
present flows straight into the produced job descriptor, whose
`nr_reduces` is then `-5 < 1`. -/
theorem Worker.jobdict_nr_reduces_lt_one_cex :
    (Worker.jobdict (Worker.init (.econs "map" (.vfunc "f") .enil))
        "disco.worker" ⟨"j", ⟨[("DISCO_JOB_OWNER", "alice")]⟩, .enil⟩
        (.econs "partitions" (.vint (-5)) .enil) []).map
        Worker.JobDict.nrReduces = some (.vint (-5))
  ∧ ((-5 : Int) < 1) := by
  exact ⟨rfl, by decide⟩

/-- C4 as amended: whenever the resolved `partitions` value is a
non-negative integer or is falsy (the spec's data model types it as a
positive integer; the code additionally tolerates falsy values by
substituting 1), every job descriptor `Worker.jobdict` produces has an
integer `nr_reduces` with `nr_reduces >= 1`. -/
theorem Worker.jobdict_nr_reduces_ge_one (w : Worker) (module : String)
    (job : Job) (jobargs : Entries) (input : List Input)
    (hp : (∃ n : Int, w.getitem "partitions" job jobargs = .vint n ∧ 0 ≤ n)
        ∨ (w.getitem "partitions" job jobargs).truthy = false) :
    ∀ d, Worker.jobdict w module job jobargs input = some d →
      ∃ n : Int, d.nrReduces = .vint n ∧ 1 ≤ n := by
  intro d hd
  have hn : Worker.nrReducesVal w job jobargs input = some d.nrReduces := by
    unfold Worker.jobdict at hd
    cases hnr : Worker.nrReducesVal w job jobargs input with
    | none => rw [hnr] at hd; simp at hd
    | some nr =>
      rw [hnr] at hd
      cases howner : job.settings.getitem "DISCO_JOB_OWNER" with
      | none => rw [howner] at hd; simp at hd
      | some o =>
        rw [howner] at hd
        simp only [Option.some_inj] at hd
        rw [← hd]
  by_cases hmerge : (w.getitem "merge_partitions" job jobargs).truthy
  · simp only [Worker.nrReducesVal, hmerge] at hn
    rcases Option.map_eq_some'.mp hn with ⟨a, _, hfa⟩
    simp at hfa
    exact ⟨1, hfa.symm, by decide⟩
  · simp only [Worker.nrReducesVal, Bool.not_eq_true] at hn
    rw [Bool.not_eq_true] at hmerge
    simp only [hmerge] at hn
    by_cases hmap : (w.getitem "map" job jobargs).truthy
    · simp only [hmap] at hn
      by_cases hpt : (w.getitem "partitions" job jobargs).truthy
      · simp only [hpt, if_true] at hn
        simp at hn
        rcases hp with ⟨n, hpn, hn0⟩ | hfalsy
        · refine ⟨n, by rw [← hn]; simpa using hpn, ?_⟩
          have : n ≠ 0 := by
            intro h0
            rw [hpn, h0] at hpt
            simp [Value.truthy] at hpt
          omega
        · rw [hfalsy] at hpt; simp at hpt
      · simp only [hpt, if_false] at hn
        simp at hn
        exact ⟨1, hn.symm, by decide⟩
    · simp only [hmap] at hn
      by_cases hpart : ispartitioned input
      · simp only [hpart, if_true] at hn
        cases hAI : allIds input with
        | nil => rw [hAI] at hn; simp at hn
        | cons i is =>
          rw [hAI] at hn
          simp at hn
          refine ⟨1 + (is.foldl max i : Nat), hn.symm, ?_⟩
          omega
      · simp only [hpart, if_false] at hn
        simp at hn
        exact ⟨1, hn.symm, by decide⟩

/-- Concrete instance of `Worker.jobdict_nr_reduces_ge_one`: a map job
with 4 partitions yields a descriptor whose `nr_reduces` is an integer of
at least 1. -/
theorem Worker.jobdict_nr_reduces_ge_one_witness :
    ∃ n : Int,
      (Worker.jobdict (Worker.init (.econs "map" (.vfunc "f") .enil))
          "disco.worker" ⟨"j", ⟨[("DISCO_JOB_OWNER", "alice")]⟩, .enil⟩
          (.econs "partitions" (.vint 4) .enil) []).map
          Worker.JobDict.nrReduces = some (.vint n) ∧ 1 ≤ n := by
  obtain ⟨n, hn, h1⟩ := Worker.jobdict_nr_reduces_ge_one
      (Worker.init (.econs "map" (.vfunc "f") .enil)) "disco.worker"
      ⟨"j", ⟨[("DISCO_JOB_OWNER", "alice")]⟩, .enil⟩
      (.econs "partitions" (.vint 4) .enil) []
      (Or.inl ⟨4, by decide, by decide⟩)
      ⟨[], Worker.bin "disco.worker", true, false, .vbool false, .vint 4,
       "j", .vdict .enil, "alice"⟩ rfl
  refine ⟨n, ?_, h1⟩
  rw [show Worker.jobdict (Worker.init (.econs "map" (.vfunc "f") .enil))
        "disco.worker" ⟨"j", ⟨[("DISCO_JOB_OWNER", "alice")]⟩, .enil⟩
        (.econs "partitions" (.vint 4) .enil) []
      = some ⟨[], Worker.bin "disco.worker", true, false, .vbool false,
              .vint 4, "j", .vdict .enil, "alice"⟩ from rfl]
  rw [Option.map_some']
  exact congrArg some hn

/-! Round-trip lemmas for the payload codec. -/

mutual
theorem decodeV_encodeV : ∀ (v : Value) (rest : List Tok) (fuel : Nat),
    (encodeV v).length ≤ fuel →
    decodeV fuel (encodeV v ++ rest) = some (v, rest)
  | .vnone, rest, fuel, h => by
    cases fuel with
    | zero => simp [encodeV] at h
    | succ f => simp [encodeV, decodeV]
  | .vbool b, rest, fuel, h => by
    cases fuel with
    | zero => simp [encodeV] at h
    | succ f => simp [encodeV, decodeV]
  | .vint n, rest, fuel, h => by
    cases fuel with
    | zero => simp [encodeV] at h
    | succ f => simp [encodeV, decodeV]
  | .vstr s, rest, fuel, h => by
    cases fuel with
    | zero => simp [encodeV] at h
    | succ f => simp [encodeV, decodeV]
  | .vfunc s, rest, fuel, h => by
    cases fuel with
    | zero => simp [encodeV] at h
    | succ f => simp [encodeV, decodeV]
  | .vdict es, rest, fuel, h => by
    cases fuel with
    | zero => simp [encodeV] at h
    | succ f =>
      have hee : (encodeE es).length ≤ f := by
        simp [encodeV] at h; omega
      simp only [encodeV, List.cons_append, decodeV]
      rw [decodeE_encodeE es rest f hee]
theorem decodeE_encodeE : ∀ (es : Entries) (rest : List Tok) (fuel : Nat),
    (encodeE es).length ≤ fuel →
    decodeE fuel (encodeE es ++ rest) = some (es, rest)
  | .enil, rest, fuel, h => by
    cases fuel with
    | zero => simp [encodeE] at h
    | succ f => simp [encodeE, decodeE]
  | .econs k v r, rest, fuel, h => by
    cases fuel with
    | zero => simp [encodeE] at h
    | succ f =>
      have h1 : (encodeV v).length ≤ f := by
        simp [encodeE] at h; omega
      have h2 : (encodeE r).length ≤ f := by
        simp [encodeE] at h; omega
      simp only [encodeE, List.cons_append, List.append_assoc, decodeE,
        decodeV_encodeV v (encodeE r ++ rest) f h1,
        decodeE_encodeE r rest f h2]
end

theorem decodeSM_encodeSM :
    ∀ (m : List (String × String)) (rest : List Tok),
      decodeSM (encodeSM m ++ rest) = some (m, rest) := by
  intro m
  induction m with
  | nil => intro rest; simp [encodeSM, decodeSM]
  | cons p r ih =>
    intro rest
    obtain ⟨k, v⟩ := p
    simp [encodeSM, decodeSM, ih]

/-- The triple decoder inverts the triple encoder, componentwise. -/
theorem decodeTriple_encodeTriple (w : Worker) (name : String)
    (tbl : List (String × String)) (attrs jobargs : Entries) :
    decodeTriple (encodeE w ++ Tok.tStr name ::
        (encodeSM tbl ++ encodeE attrs ++ encodeE jobargs))
      = some (w, ⟨name, ⟨tbl⟩, attrs⟩, jobargs) := by
  rw [show encodeSM tbl ++ encodeE attrs ++ encodeE jobargs
      = encodeSM tbl ++ (encodeE attrs ++ encodeE jobargs)
      from List.append_assoc _ _ _]
  have hw : (encodeE w).length ≤
      (encodeE w ++ Tok.tStr name ::
        (encodeSM tbl ++ (encodeE attrs ++ encodeE jobargs))).length := by
    simp
  have hattrs : (encodeE attrs).length ≤
      (encodeE w ++ Tok.tStr name ::
        (encodeSM tbl ++ (encodeE attrs ++ encodeE jobargs))).length := by
    simp; omega
  unfold decodeTriple
  dsimp only
  rw [decodeE_encodeE w _ _ hw]
  dsimp only
  rw [decodeSM_encodeSM tbl (encodeE attrs ++ encodeE jobargs)]
  dsimp only
  rw [decodeE_encodeE attrs (encodeE jobargs) _ hattrs]
  dsimp only
  rw [show encodeE jobargs = encodeE jobargs ++ ([] : List Tok) from
    (List.append_nil _).symm]
  have hja : (encodeE jobargs).length ≤
      (encodeE w ++ Tok.tStr name ::
        (encodeSM tbl ++ (encodeE attrs ++
          (encodeE jobargs ++ ([] : List Tok))))).length := by
    simp; omega
  rw [decodeE_encodeE jobargs [] _ hja]
  simp

/-- C9: the payload round-trips — deserializing (`Worker.unpack`) the
payload `Worker.jobdata` produced for a (worker, job, call-time
arguments) triple reconstructs exactly that triple, so the runtime
executes the reconstructed triple identically to the original without
further user input. -/
theorem Worker.unpack_jobdata_roundtrip (w : Worker) (job : Job)
    (jobargs : Entries) :
    Worker.unpack ⟨Worker.jobdata w job jobargs⟩
      = some (w, job, jobargs) := by
  obtain ⟨name, ⟨tbl⟩, attrs⟩ := job
  exact decodeTriple_encodeTriple w name tbl attrs jobargs
